import Mathlib

/-!
Verification development for the ODE-function subsystem of
ConditionalSegmentFlow (`src/models/odefunc.py`).

Tensors are shallowly embedded as functions over `Fin`-indexed axes with
rational entries (one scalar dtype; the float dtype of the source is modelled
by `ℚ`).  A three-dimensional tensor of shape `(B, P, D)` — batch, points,
feature dimension — is `Fin B → Fin P → Fin D → ℚ`.

Reverse-mode automatic differentiation (`torch.autograd.grad`) is embedded for
drifts that act pointwise on the `(batch, point)` slices: such a drift is
represented by its value together with a pointwise Jacobian field
`J b p i j = ∂ f[b,p,i] / ∂ y[b,p,j]`, and the gradient call with
`grad_outputs = e` returns the vector–Jacobian product.  The lemma
`tdot_linDrift_shift` grounds this embedding for the linear drift
`y ↦ torch.bmm(y, A)`: the declared VJP is exactly the change of the scalar
`⟨e, f(y)⟩` under a shift of `y`, with no remainder term.
-/

/-- Tensor of shape `(B, P, D)`. -/
abbrev T3 (B P D : ℕ) : Type := Fin B → Fin P → Fin D → ℚ

/-- Scalar product of two tensors of shape `(B, P, D)`: the scalar whose
gradient `torch.autograd.grad(f, y, grad_outputs=e)` computes. -/
def tdot {B P D : ℕ} (e f : T3 B P D) : ℚ :=
  ∑ b, ∑ p, ∑ i, e b p i * f b p i

/-- Pointwise addition of tensors (used to express directional shifts). -/
def tadd {B P D : ℕ} (y v : T3 B P D) : T3 B P D :=
  fun b p i => y b p i + v b p i

/-- Embedding of `torch.autograd.grad(f, y, grad_outputs=e)[0]` for a drift
`f` computed from `y` whose `(b, p)` slice depends only on the `(b, p)` slice
of `y`, with pointwise Jacobian field `J b p i j = ∂ f[b,p,i] / ∂ y[b,p,j]`:
the vector–Jacobian product `(Σ_i e[b,p,i] · J b p i j)_j`. -/
def torchGrad {B P D : ℕ} (J : Fin B → Fin P → Fin D → Fin D → ℚ)
    (e : T3 B P D) : T3 B P D :=
  fun b p j => ∑ i, e b p i * J b p i j

/-- Embeds `divergence_approx(f, y, e)` (src/models/odefunc.py lines 9–27), for a
drift with pointwise Jacobian field `J`: one gradient call
`e_dzdx = torch.autograd.grad(f, y, e)[0]`, elementwise product
`e_dzdx.mul(e)`, and `.sum(dim=-1)` over the last dimension. -/
def divergence_approx {B P D : ℕ} (J : Fin B → Fin P → Fin D → Fin D → ℚ)
    (e : T3 B P D) : Fin B → Fin P → ℚ :=
  fun b p => ∑ j, (torchGrad J e b p j) * e b p j

/-- The constant tensor selecting feature coordinate `i`: the gradient seed of
the scalar `dx[:, :, i].sum()` with respect to `dx`. -/
def basisE {B P D : ℕ} (i : Fin D) : T3 B P D :=
  fun _ _ j => if j = i then 1 else 0

/-- Embeds `divergence_bf(dx, y)` (src/models/odefunc.py lines 30–35): for each
feature index `i`, the gradient of `dx[:, :, i].sum()` with respect to `y`
(the VJP seeded with `basisE i`), of which component `[:, :, i]` is taken;
the results are summed over `i`. -/
def divergence_bf {B P D : ℕ} (J : Fin B → Fin P → Fin D → Fin D → ℚ) :
    Fin B → Fin P → ℚ :=
  fun b p => ∑ i, torchGrad J (basisE i) b p i

/-- Embeds `torch.bmm(x, A)` restricted to the square per-batch matrices used by the
linear drift: `(x @ A)[b,p,c] = Σ_r x[b,p,r] * A[b,r,c]`. -/
def bmm {B P D : ℕ} (x : T3 B P D) (A : Fin B → Fin D → Fin D → ℚ) :
    T3 B P D :=
  fun b p c => ∑ r, x b p r * A b r c

/-- The linear drift `dy = y @ A` (per-batch matrix `A`), the analytic test
case of the spec: `dy[b,p,i] = Σ_j y[b,p,j] * A[b,j,i]`. -/
def linDrift {B P D : ℕ} (A : Fin B → Fin D → Fin D → ℚ) (y : T3 B P D) :
    T3 B P D :=
  bmm y A

/-- Pointwise Jacobian field of `linDrift A`:
`∂ (y @ A)[b,p,i] / ∂ y[b,p,j] = A[b,j,i]`. -/
def linJac {B P D : ℕ} (A : Fin B → Fin D → Fin D → ℚ) :
    Fin B → Fin P → Fin D → Fin D → ℚ :=
  fun b _ i j => A b j i

/-- Two-dimensional tensor of batch size `B`, each batch row a flat list of
scalars (row `b` has the feature entries of the row; the row length is the
trailing shape of the tensor flattened, as produced by `.view(B, -1)`). -/
abbrev TRow (B : ℕ) : Type := Fin B → List ℚ

/-- Embeds `torch.zeros_like(c)` (same shape, all entries zero). -/
def zerosLike {B : ℕ} (c : TRow B) : TRow B :=
  fun b => (c b).map (fun _ => 0)

/-- Embeds `torch.ones(y.size(0), 1) * t`: the scalar time broadcast to a
`(B, 1)` column. -/
def timeB (B : ℕ) (t : ℚ) : TRow B :=
  fun _ => [t]

/-- Embeds `torch.cat([x, c], dim=1)`: row-wise concatenation. -/
def catRow {B : ℕ} (x c : TRow B) : TRow B :=
  fun b => x b ++ c b

/-- Embeds `(-divergence).view(-1, 1)` and `(-divergence).unsqueeze(-1)`: the negated
per-batch divergence as a `(B, 1)` column. -/
def negCol {B : ℕ} (d : Fin B → ℚ) : TRow B :=
  fun b => [-(d b)]

/-- Embeds `torch.randn_like(y)`: a tensor with the shape of `y` filled from the noise
source `noise` (the draws of the runtime RNG, abstract here; the source
draws them from a standard normal distribution). -/
def randnLike {B : ℕ} (noise : Fin B → ℕ → ℚ) (y : TRow B) : TRow B :=
  fun b => (List.range (y b).length).map (noise b)

/-- The mutable fields of an `ODEfunc` / `ODEhyperfunc` / `ODEhyperfunc2D`
instance.  `e?` models the Python attribute `self._e`: `none` means the
attribute was never bound (reading it raises `AttributeError`),
`some none` means it was bound to Python `None`, `some (some e)` means it
holds the fixed probe tensor `e`.  `numEvals` models `self._num_evals`. -/
structure FuncState (B : ℕ) where
  e? : Option (Option (TRow B))
  numEvals : ℕ

/-- Message of the `IndexError` raised by out-of-range tuple indexing. -/
def indexErrMsg : String := "IndexError: tuple index out of range"

/-- Message of the `AttributeError` raised when `self._e` is read before it
was ever assigned. -/
def attrErrMsg : String := "AttributeError: object has no attribute _e"

/-- Message of the `assert 0` in `ODEfunc.forward` for unsupported
state-tuple lengths. -/
def assertLenMsg : String := "AssertionError: len(states) should be 2 or 3"

/-- A freshly constructed instance (`__init__`, src lines 112–117): the
counter buffer is zero and the `_e` attribute is not bound. -/
def ODEfunc.init (B : ℕ) : FuncState B :=
  ⟨none, 0⟩

/-- Embeds `before_odeint(e=None)` (src lines 119–121): binds `self._e = e` and
resets the evaluation counter. -/
def ODEfunc.before_odeint {B : ℕ} (_s : FuncState B) (e : Option (TRow B)) :
    FuncState B :=
  ⟨some e, 0⟩

/-- Embeds `ODEfunc.forward(t, states)` (src lines 123–147).  `diffeq` is the wrapped
drift network (opaque: a callable `(context, y) ↦ dy`), `divFn` the divergence
estimator `(f, y, e) ↦` per-batch divergence (`divergence_approx` in the
source, abstracted because `diffeq` is opaque), `noise` the RNG draws backing
`torch.randn_like`.  Returns the updated instance state and the derivative
tuple, or the uncaught Python exception. -/
def ODEfunc.forward {B : ℕ} (diffeq : TRow B → TRow B → TRow B)
    (divFn : TRow B → TRow B → TRow B → Fin B → ℚ)
    (noise : Fin B → ℕ → ℚ) (s : FuncState B) (t : ℚ)
    (states : List (TRow B)) :
    Except String (FuncState B × List (TRow B)) :=
  match states with
  | [] => Except.error indexErrMsg
  | y :: rest =>
    let tt := timeB B t
    match s.e? with
    | none => Except.error attrErrMsg
    | some eOpt =>
      let e := eOpt.getD (randnLike noise y)
      let s2 : FuncState B := ⟨some (some e), s.numEvals + 1⟩
      match rest with
      | [_lp, c] =>
        let tc := catRow tt c
        let dy := diffeq tc y
        let divergence := divFn dy y e
        Except.ok (s2, [dy, negCol divergence, zerosLike c])
      | [_lp] =>
        let dy := diffeq tt y
        let divergence := divFn dy y e
        Except.ok (s2, [dy, negCol divergence])
      | _ => Except.error assertLenMsg

/-- Embeds `ODEhyperfunc.forward(t, states)` (src lines 162–188).  `diffeq` is the
wrapped hypernetwork drift `(context, y, weights) ↦ dy`; `divAP` and `divBF`
stand for `divergence_approx` and `divergence_bf` (abstract parameters, since
`diffeq` is opaque here); `training` is the `nn.Module` training flag and
`useTrain`/`useTest` the construction flags `use_div_approx_train` /
`use_div_approx_test`. -/
def ODEhyperfunc.forward {B : ℕ} (diffeq : TRow B → TRow B → TRow B → TRow B)
    (divAP : TRow B → TRow B → TRow B → Fin B → ℚ)
    (divBF : TRow B → TRow B → Fin B → ℚ)
    (training useTrain useTest : Bool)
    (noise : Fin B → ℕ → ℚ) (s : FuncState B) (t : ℚ)
    (states : List (TRow B)) :
    Except String (FuncState B × List (TRow B)) :=
  match states with
  | [] => Except.error indexErrMsg
  | y :: _ =>
    let tt := timeB B t
    match s.e? with
    | none => Except.error attrErrMsg
    | some eOpt =>
      let e := eOpt.getD (randnLike noise y)
      let s2 : FuncState B := ⟨some (some e), s.numEvals + 1⟩
      match states.get? 2 with
      | none => Except.error indexErrMsg
      | some c =>
        let dy := diffeq tt y c
        let divergence :=
          if training then
            if useTrain then divAP dy y e else divBF dy y
          else
            if useTest then divAP dy y e else divBF dy y
        Except.ok (s2, [dy, negCol divergence, zerosLike c])

/-- Embeds `ODEhyperfunc2D.forward(t, states)` (src lines 255–271): reads
`c = states[2]` and `target_networks_weights = states[3]`, calls
`diffeq(t, y, c, w)`, and returns zero derivatives for both auxiliary
channels. -/
def ODEhyperfunc2D.forward {B : ℕ}
    (diffeq : TRow B → TRow B → TRow B → TRow B → TRow B)
    (divFn : TRow B → TRow B → TRow B → Fin B → ℚ)
    (noise : Fin B → ℕ → ℚ) (s : FuncState B) (t : ℚ)
    (states : List (TRow B)) :
    Except String (FuncState B × List (TRow B)) :=
  match states with
  | [] => Except.error indexErrMsg
  | y :: _ =>
    let tt := timeB B t
    match s.e? with
    | none => Except.error attrErrMsg
    | some eOpt =>
      let e := eOpt.getD (randnLike noise y)
      let s2 : FuncState B := ⟨some (some e), s.numEvals + 1⟩
      match states.get? 2, states.get? 3 with
      | some c, some w =>
        let dy := diffeq tt y c w
        let divergence := divFn dy y e
        Except.ok (s2, [dy, negCol divergence, zerosLike c, zerosLike w])
      | _, _ => Except.error indexErrMsg

/-- Construction loop of `ODEnet.__init__` (src lines 84–100), cursor form:
`hidden_shape[0]` starts at `cur` and each produced layer maps its current
input width to the next requested output width. -/
def ODEnet.layerDimsGo (cur : ℕ) : List ℕ → List (ℕ × ℕ)
  | [] => []
  | d :: rest => (cur, d) :: ODEnet.layerDimsGo d rest

/-- The `(input_width, output_width)` pairs of the layers built by
`ODEnet.__init__` from `hidden_dims` and `input_shape = (D, ...)`: one layer
per entry of `hidden_dims + (input_shape[0],)`. -/
def ODEnet.layerDims (hidden_dims : List ℕ) (D : ℕ) : List (ℕ × ℕ) :=
  ODEnet.layerDimsGo D (hidden_dims ++ [D])

/-- Number of stored activation functions: `activation_fns[:-1]`
(src line 100) keeps one fewer than the number of layers. -/
def ODEnet.activationCount (hidden_dims : List ℕ) (D : ℕ) : ℕ :=
  (ODEnet.layerDims hidden_dims D).length - 1

/-- Embeds the `ODEnet.forward` loop (src lines 102–109) over the layer list: each layer
is an opaque callable `(context, x) ↦ xNew` from `diffeq_layers`, and the
nonlinearity `act` is applied after layer `l` iff `l < len(layers) - 1`. -/
def ODEnet.forwardGo {B : ℕ} (act : TRow B → TRow B) :
    List (TRow B → TRow B → TRow B) → TRow B → TRow B → TRow B
  | [], _, dx => dx
  | [f], ctx, dx => f ctx dx
  | f :: g :: rest, ctx, dx =>
      ODEnet.forwardGo act (g :: rest) ctx (act (f ctx dx))

/-- Embeds `ODEnet.forward(context, y)`. -/
def ODEnet.forward {B : ℕ} (act : TRow B → TRow B)
    (layers : List (TRow B → TRow B → TRow B)) (ctx y : TRow B) : TRow B :=
  ODEnet.forwardGo act layers ctx y

/-- Flat per-sample hypernetwork weight vector (`target_networks_weights`):
`w b k` is element `k` of batch row `b`. -/
abbrev TW (B : ℕ) : Type := Fin B → ℕ → ℚ

/-- Hypernetwork activation tensor of shape `(B, P, width)`, with the trailing
width implicit (entries beyond the current width are never read). -/
abbrev TD (B P : ℕ) : Type := Fin B → Fin P → ℕ → ℚ

/-- One layer of `ODEHypernet.forward` (src lines 211–240), for input width
`m = dims[l]` and output width `n = dims[l+1]`, acting on the pair
(current activation, unpacking cursor `i`).  The five segments are read from
the flat vector `w` in the fixed order of the source — weight matrix
(`[i, i+m*n)`, row-major `view(B, m, n)`), bias (`[i+m*n, ·+n)`),
weight-scale, bias-scale, shift (each `n` wide) — and the cursor advances by
the length of each segment directly after it is read.  `sg` is `torch.sigmoid`;
`ctx` is the `(B, 1)` context column whose `bmm` with a `(B, 1, n)` segment
is a scalar–row product. -/
def ODEHypernet.layerStep {B P : ℕ} (sg : ℚ → ℚ) (ctx : Fin B → ℚ)
    (w : TW B) (m n : ℕ) (st : TD B P × ℕ) : TD B P × ℕ :=
  let dx := st.1
  let i := st.2
  let weight : Fin B → ℕ → ℕ → ℚ := fun b r c => w b (i + r * n + c)
  let i1 := i + m * n
  let dx1 : TD B P := fun b p c =>
    (∑ r ∈ Finset.range m, dx b p r * weight b r c) + w b (i1 + c)
  let i2 := i1 + n
  let i3 := i2 + n
  let scale : Fin B → ℕ → ℚ := fun b c =>
    sg (ctx b * w b (i2 + c) + w b (i3 + c))
  let i4 := i3 + n
  let dx2 : TD B P := fun b p c => scale b c * dx1 b p c
  let dx3 : TD B P := fun b p c => dx2 b p c + ctx b * w b (i4 + c)
  let i5 := i4 + n
  (dx3, i5)

/-- One layer of `ODEHypernet2D.forward` (src lines 292–320): as
`ODEHypernet.layerStep`, except that `y_points` (a `(B, P, 2)` tensor `yp`)
is concatenated onto the activation before the matrix multiply, so the weight
matrix has `m + 2` rows and the weight segment is `(m+2)*n` wide. -/
def ODEHypernet2D.layerStep {B P : ℕ} (sg : ℚ → ℚ) (ctx : Fin B → ℚ)
    (yp : TD B P) (w : TW B) (m n : ℕ) (st : TD B P × ℕ) : TD B P × ℕ :=
  let dx := st.1
  let i := st.2
  let weight : Fin B → ℕ → ℕ → ℚ := fun b r c => w b (i + r * n + c)
  let i1 := i + (m + 2) * n
  let dxc : TD B P := fun b p r => if r < m then dx b p r else yp b p (r - m)
  let dx1 : TD B P := fun b p c =>
    (∑ r ∈ Finset.range (m + 2), dxc b p r * weight b r c) + w b (i1 + c)
  let i2 := i1 + n
  let i3 := i2 + n
  let scale : Fin B → ℕ → ℚ := fun b c =>
    sg (ctx b * w b (i2 + c) + w b (i3 + c))
  let i4 := i3 + n
  let dx2 : TD B P := fun b p c => scale b c * dx1 b p c
  let dx3 : TD B P := fun b p c => dx2 b p c + ctx b * w b (i4 + c)
  let i5 := i4 + n
  (dx3, i5)

/-- The loop `for l in range(len(dims) - 1)` of `ODEHypernet.forward`,
threading (activation, cursor) through the per-layer pairs
`(dims[l], dims[l+1])`; the nonlinearity is applied after every layer except
the last (`if l < len(self.dims) - 2`). -/
def ODEHypernet.forwardAux {B P : ℕ} (sg act : ℚ → ℚ) (ctx : Fin B → ℚ)
    (w : TW B) : List (ℕ × ℕ) → TD B P × ℕ → TD B P × ℕ
  | [], st => st
  | [mn], st => ODEHypernet.layerStep sg ctx w mn.1 mn.2 st
  | mn :: mn2 :: rest, st =>
      let st1 := ODEHypernet.layerStep sg ctx w mn.1 mn.2 st
      ODEHypernet.forwardAux sg act ctx w (mn2 :: rest)
        (fun b p c => act (st1.1 b p c), st1.2)

/-- Same loop for `ODEHypernet2D.forward`. -/
def ODEHypernet2D.forwardAux {B P : ℕ} (sg act : ℚ → ℚ) (ctx : Fin B → ℚ)
    (yp : TD B P) (w : TW B) : List (ℕ × ℕ) → TD B P × ℕ → TD B P × ℕ
  | [], st => st
  | [mn], st => ODEHypernet2D.layerStep sg ctx yp w mn.1 mn.2 st
  | mn :: mn2 :: rest, st =>
      let st1 := ODEHypernet2D.layerStep sg ctx yp w mn.1 mn.2 st
      ODEHypernet2D.forwardAux sg act ctx yp w (mn2 :: rest)
        (fun b p c => act (st1.1 b p c), st1.2)

/-- Embeds `list(map(int, dims.split("-")))`. -/
def parseDims (s : String) : List ℕ :=
  (s.splitOn "-").map (fun u => u.toNat!)

/-- Embeds `self.dims = [input_dim] + list(map(int, dims.split("-"))) + [input_dim]`
(src lines 203–204 and 286). -/
def hyperDims (dims : String) (input_dim : ℕ) : List ℕ :=
  input_dim :: parseDims dims ++ [input_dim]

/-- The consecutive pairs `(dims[l], dims[l+1])`, `l < len(dims) - 1`. -/
def pairsOf (dims : List ℕ) : List (ℕ × ℕ) :=
  dims.zip dims.tail

/-- Stored fields of an `ODEHypernet` / `ODEHypernet2D` module
(src lines 196–204, 279–286): the dims string and input dimension determine
`self.dims`; `use_bias` is stored by `__init__`. -/
structure ODEHypernetMod where
  dims : String
  input_dim : ℕ
  use_bias : Bool

/-- Embeds `ODEHypernet.forward(context, y, target_networks_weights)`
(src lines 206–241), as the first component of the threaded loop started at
cursor `0`. -/
def ODEHypernet.forwardM {B P : ℕ} (sg act : ℚ → ℚ) (M : ODEHypernetMod)
    (ctx : Fin B → ℚ) (y : TD B P) (w : TW B) : TD B P :=
  (ODEHypernet.forwardAux sg act ctx w
    (pairsOf (hyperDims M.dims M.input_dim)) (y, 0)).1

/-- Embeds `ODEHypernet2D.forward(context, y, y_points, target_networks_weights)`
(src lines 288–321). -/
def ODEHypernet2D.forwardM {B P : ℕ} (sg act : ℚ → ℚ) (M : ODEHypernetMod)
    (ctx : Fin B → ℚ) (y yp : TD B P) (w : TW B) : TD B P :=
  (ODEHypernet2D.forwardAux sg act ctx yp w
    (pairsOf (hyperDims M.dims M.input_dim)) (y, 0)).1

/-- The retry loop of `divergence_approx` (src lines 13–20):
`while not e_dzdx_e.requires_grad and cnt < 10: recompute; cnt += 1`, driven
by the flag `rg k` of the tensor produced by the k-th gradient call (attempt
0 is the call before the loop).  Fuel form: `fuel = 10 - cnt`. -/
def retryLoop (rg : ℕ → Bool) : ℕ → ℕ → ℕ
  | 0, cnt => cnt
  | fuel + 1, cnt => if rg cnt then cnt else retryLoop rg fuel (cnt + 1)

/-- The loop counter value at which the retry loop of `divergence_approx`
exits, starting from `cnt = 0`. -/
def retryFinal (rg : ℕ → Bool) : ℕ :=
  retryLoop rg 10 0

/-- The assertion message of `divergence_approx` (src lines 23–26), carrying
`f.size()`, `f.requires_grad`, `y.requires_grad`, `e_dzdx.requires_grad`,
`e.requires_grad`, `e_dzdx_e.requires_grad` and `cnt`. -/
def diagMsg (fSize : List ℕ) (fRG yRG xRG eRG xeRG : Bool) (cnt : ℕ) :
    String :=
  "(failed to add node to graph) f=" ++ toString fSize ++ " " ++
    toString fRG ++ ", y(rgrad)=" ++ toString yRG ++ ", e_dzdx:" ++
    toString xRG ++ ", e:" ++ toString eRG ++ ", e_dzdx_e:" ++
    toString xeRG ++ " cnt:" ++ toString cnt

/-- Control-flow model of `divergence_approx` (src lines 9–27), combining the
value computation of `divergence_approx` with the gradient-history
bookkeeping.  `xRG k` is the `requires_grad` flag of the tensor returned by
the k-th gradient call; `e_dzdx_e = e_dzdx.mul(e)` requires grad iff either
factor does (`xRG k || eRG`), and `.sum(dim=-1)` preserves the flag, so the
final `assert` checks exactly the loop flag.  Each attempt repeats the same
gradient call, so the returned value is `divergence_approx J e` independent
of the exit attempt; alongside it the final `cnt` is returned. -/
def divergence_approxFull {B P D : ℕ}
    (J : Fin B → Fin P → Fin D → Fin D → ℚ) (e : T3 B P D)
    (xRG : ℕ → Bool) (eRG : Bool) (fSize : List ℕ) (fRG yRG : Bool) :
    Except String ((Fin B → Fin P → ℚ) × ℕ) :=
  let rg : ℕ → Bool := fun k => xRG k || eRG
  let cnt := retryFinal rg
  if rg cnt then Except.ok (divergence_approx J e, cnt)
  else Except.error (diagMsg fSize fRG yRG (xRG cnt) eRG (rg cnt) cnt)

/-- Concrete drift callable used by closed instances: the identity drift. -/
def dq2 : TRow 1 → TRow 1 → TRow 1 := fun _ y => y

/-- Concrete 3-argument drift callable for closed instances. -/
def dq3 : TRow 1 → TRow 1 → TRow 1 → TRow 1 := fun _ y _ => y

/-- Concrete 4-argument drift callable for closed instances. -/
def dq4 : TRow 1 → TRow 1 → TRow 1 → TRow 1 → TRow 1 := fun _ y _ _ => y

/-- Concrete divergence-estimator callable (3 tensor arguments). -/
def dv3 : TRow 1 → TRow 1 → TRow 1 → Fin 1 → ℚ := fun _ _ _ _ => 0

/-- Concrete divergence-estimator callable (2 tensor arguments). -/
def dv2 : TRow 1 → TRow 1 → Fin 1 → ℚ := fun _ _ _ => 0

/-- Concrete zero noise source for closed instances. -/
def noise0 : Fin 1 → ℕ → ℚ := fun _ _ => 0

/-- Concrete one-entry row tensor for closed instances. -/
def row1 : TRow 1 := fun _ => [1]

/-- Concrete pointwise Jacobian field for closed instances. -/
def J1 : Fin 1 → Fin 1 → Fin 1 → Fin 1 → ℚ := fun _ _ _ _ => 0

/-- Concrete `(1,1,1)` tensor for closed instances. -/
def e1 : T3 1 1 1 := fun _ _ _ => 0

/-- Grounding of the AD embedding on the linear drift: shifting `y` by `v`
changes the scalar `⟨e, linDrift A y⟩` by exactly `⟨torchGrad (linJac A) e, v⟩`,
so `torchGrad (linJac A) e` is the exact gradient of that scalar in `y`. -/
theorem tdot_linDrift_shift {B P D : ℕ} (A : Fin B → Fin D → Fin D → ℚ)
    (e y v : T3 B P D) :
    tdot e (linDrift A (tadd y v)) =
      tdot e (linDrift A y) + tdot (torchGrad (linJac A) e) v := by
  simp only [tdot, linDrift, bmm, tadd, torchGrad, linJac]
  rw [← Finset.sum_add_distrib]
  refine Finset.sum_congr rfl fun b _ => ?_
  rw [← Finset.sum_add_distrib]
  refine Finset.sum_congr rfl fun p _ => ?_
  have h1 : ∀ i : Fin D, e b p i * (∑ r, (y b p r + v b p r) * A b r i) =
      e b p i * (∑ r, y b p r * A b r i) + ∑ r, e b p i * (v b p r * A b r i) := by
    intro i
    simp [add_mul, mul_add, Finset.sum_add_distrib, Finset.mul_sum]
  rw [Finset.sum_congr rfl fun i _ => h1 i, Finset.sum_add_distrib]
  congr 1
  rw [Finset.sum_comm]
  refine Finset.sum_congr rfl fun r _ => ?_
  rw [Finset.sum_mul]
  refine Finset.sum_congr rfl fun i _ => ?_
  ring

/-- One collapsed VJP seeded with a basis vector reads off a Jacobian row. -/
theorem torchGrad_basisE {B P D : ℕ} (J : Fin B → Fin P → Fin D → Fin D → ℚ)
    (i : Fin D) (b : Fin B) (p : Fin P) (j : Fin D) :
    torchGrad J (basisE i) b p j = J b p i j := by
  simp [torchGrad, basisE]

/-- C1: `divergence_approx(f, y, e)` returns, for each batch element and
point, the quadratic form `eᵀ J e` (the VJP of one gradient call,
elementwise-multiplied by `e` and summed over the last dimension), and
`divergence_bf(dx, y)` returns the exact trace of the Jacobian; for a linear
drift `dy = y @ A` (pointwise Jacobian `(linJac A) b p i j = A b j i`,
grounded by the exact shift identity in the first conjunct) `divergence_bf`
returns `trace(A[b])` for every batch element and point. -/
theorem C1_divergence_estimators {B P D : ℕ}
    (J : Fin B → Fin P → Fin D → Fin D → ℚ)
    (A : Fin B → Fin D → Fin D → ℚ) (e : T3 B P D) (b : Fin B) (p : Fin P) :
    (∀ y v : T3 B P D, tdot e (linDrift A (tadd y v)) =
        tdot e (linDrift A y) + tdot (torchGrad (linJac A) e) v)
    ∧ divergence_approx J e b p = ∑ i, ∑ j, e b p i * J b p i j * e b p j
    ∧ divergence_bf J b p = ∑ i, J b p i i
    ∧ divergence_approx (linJac A) e b p
        = ∑ i, ∑ j, e b p i * A b j i * e b p j
    ∧ divergence_bf (linJac A) b p = ∑ i, A b i i := by
  refine ⟨fun y v => tdot_linDrift_shift A e y v, ?_, ?_, ?_, ?_⟩
  · simp only [divergence_approx, torchGrad, Finset.sum_mul]
    exact Finset.sum_comm
  · simp [divergence_bf, torchGrad, basisE]
  · simp only [divergence_approx, torchGrad, linJac, Finset.sum_mul]
    exact Finset.sum_comm
  · simp [divergence_bf, torchGrad, basisE, linJac]

/-- The unpacking cursor threaded through the `ODEHypernet.forward` loop
advances by `m * n + 4 * n` per `(m, n)` layer. -/
theorem hypernetForwardAux_cursor {B P : ℕ} (sg act : ℚ → ℚ)
    (ctx : Fin B → ℚ) (w : TW B) :
    ∀ (pairs : List (ℕ × ℕ)) (st : TD B P × ℕ),
      (ODEHypernet.forwardAux sg act ctx w pairs st).2 =
        st.2 + ((pairs.map (fun mn => mn.1 * mn.2 + 4 * mn.2)).sum) := by
  intro pairs
  induction pairs with
  | nil => intro st; simp [ODEHypernet.forwardAux]
  | cons mn rest ih =>
    intro st
    cases rest with
    | nil =>
      simp [ODEHypernet.forwardAux, ODEHypernet.layerStep]
      ring
    | cons mn2 rest2 =>
      simp only [ODEHypernet.forwardAux]
      rw [ih]
      simp [ODEHypernet.layerStep]
      ring

/-- Cursor advance for the 2D variant: `(m + 2) * n + 4 * n` per layer. -/
theorem hypernet2DForwardAux_cursor {B P : ℕ} (sg act : ℚ → ℚ)
    (ctx : Fin B → ℚ) (yp : TD B P) (w : TW B) :
    ∀ (pairs : List (ℕ × ℕ)) (st : TD B P × ℕ),
      (ODEHypernet2D.forwardAux sg act ctx yp w pairs st).2 =
        st.2 + ((pairs.map (fun mn => (mn.1 + 2) * mn.2 + 4 * mn.2)).sum) := by
  intro pairs
  induction pairs with
  | nil => intro st; simp [ODEHypernet2D.forwardAux]
  | cons mn rest ih =>
    intro st
    cases rest with
    | nil =>
      simp [ODEHypernet2D.forwardAux, ODEHypernet2D.layerStep]
      ring
    | cons mn2 rest2 =>
      simp only [ODEHypernet2D.forwardAux]
      rw [ih]
      simp [ODEHypernet2D.layerStep]
      ring

/-- C2: one forward pass of `ODEHypernet` consumes exactly
`Σ_l [dims[l] * dims[l+1] + 4 * dims[l+1]]` elements of the flat per-sample
weight vector, and one forward pass of `ODEHypernet2D` consumes exactly
`Σ_l [(dims[l] + 2) * dims[l+1] + 4 * dims[l+1]]` elements: the final
unpacking cursor of the threaded loop (started at 0, advanced after each of
the five per-layer segments read in the fixed source order) equals the layout
formula, for every dims string and input dimension. -/
theorem C2_hypernet_weight_consumption {B P : ℕ} (sg act : ℚ → ℚ)
    (dims : String) (input_dim : ℕ) (ub : Bool) (ctx : Fin B → ℚ)
    (w : TW B) (y yp : TD B P) :
    (ODEHypernet.forwardAux sg act ctx w
        (pairsOf (hyperDims dims input_dim)) (y, 0)).2 =
      (((pairsOf (hyperDims dims input_dim)).map
        (fun mn => mn.1 * mn.2 + 4 * mn.2)).sum)
    ∧ (ODEHypernet2D.forwardAux sg act ctx yp w
        (pairsOf (hyperDims dims input_dim)) (y, 0)).2 =
      (((pairsOf (hyperDims dims input_dim)).map
        (fun mn => (mn.1 + 2) * mn.2 + 4 * mn.2)).sum)
    ∧ ODEHypernet.forwardM sg act ⟨dims, input_dim, ub⟩ ctx y w =
      (ODEHypernet.forwardAux sg act ctx w
        (pairsOf (hyperDims dims input_dim)) (y, 0)).1
    ∧ ODEHypernet2D.forwardM sg act ⟨dims, input_dim, ub⟩ ctx y yp w =
      (ODEHypernet2D.forwardAux sg act ctx yp w
        (pairsOf (hyperDims dims input_dim)) (y, 0)).1 := by
  refine ⟨?_, ?_, rfl, rfl⟩
  · rw [hypernetForwardAux_cursor]; simp
  · rw [hypernet2DForwardAux_cursor]; simp

/-- C7: an `ODEnet` built with `hidden_dims = (H,)` and input shape
`(D, ...)` contains exactly 2 layers, the output width of the final layer is `D`,
one activation function is kept (`activation_fns[:-1]`), and the forward pass
applies the nonlinearity after every layer except the last. -/
theorem C7_odenet_structure (D H : ℕ) (_hD : 0 < D) (_hH : 0 < H) :
    ODEnet.layerDims [H] D = [(D, H), (H, D)]
    ∧ (ODEnet.layerDims [H] D).length = 2
    ∧ (ODEnet.layerDims [H] D).getLast? = some (H, D)
    ∧ ODEnet.activationCount [H] D = 1
    ∧ ∀ (B : ℕ) (act : TRow B → TRow B) (f g : TRow B → TRow B → TRow B)
        (ctx y : TRow B),
        ODEnet.forward act [f, g] ctx y = g ctx (act (f ctx y)) :=
  ⟨rfl, rfl, rfl, rfl, fun _ _ _ _ _ _ => rfl⟩

/-- Closed instance of C7 at `D = 2`, `H = 3`. -/
theorem C7_odenet_structure_witness :
    ODEnet.layerDims [3] 2 = [(2, 3), (3, 2)] :=
  (C7_odenet_structure 2 3 (by decide) (by decide)).1

/-- C3: for a 3-channel state tuple, `ODEfunc.forward` and
`ODEhyperfunc.forward` return for the third channel exactly
`torch.zeros_like` of that channel, and for a 4-channel tuple
`ODEhyperfunc2D.forward` additionally returns the zero tensor of the
hypernetwork-weights channel; `zerosLike` has the shape of the input with
every entry zero (the single scalar dtype of the embedding models the
matching dtype). -/
theorem C3_zero_aux_derivatives {B : ℕ} (diffeq : TRow B → TRow B → TRow B)
    (diffeq3 : TRow B → TRow B → TRow B → TRow B)
    (diffeq4 : TRow B → TRow B → TRow B → TRow B → TRow B)
    (divFn : TRow B → TRow B → TRow B → Fin B → ℚ)
    (divBF : TRow B → TRow B → Fin B → ℚ)
    (training useTrain useTest : Bool)
    (noise : Fin B → ℕ → ℚ) (s : FuncState B) (t : ℚ)
    (y lp c wt e0 : TRow B) (h : s.e? = some (some e0)) :
    (∃ dy d, ODEfunc.forward diffeq divFn noise s t [y, lp, c] =
        Except.ok (⟨some (some e0), s.numEvals + 1⟩, [dy, d, zerosLike c]))
    ∧ (∃ dy d, ODEhyperfunc.forward diffeq3 divFn divBF training useTrain
        useTest noise s t [y, lp, c] =
        Except.ok (⟨some (some e0), s.numEvals + 1⟩, [dy, d, zerosLike c]))
    ∧ (∃ dy d, ODEhyperfunc2D.forward diffeq4 divFn noise s t [y, lp, c, wt] =
        Except.ok (⟨some (some e0), s.numEvals + 1⟩,
          [dy, d, zerosLike c, zerosLike wt]))
    ∧ (∀ b : Fin B, (zerosLike c b).length = (c b).length)
    ∧ (∀ b : Fin B, ∀ q ∈ zerosLike c b, q = 0)
    ∧ (∀ b : Fin B, (zerosLike wt b).length = (wt b).length)
    ∧ (∀ b : Fin B, ∀ q ∈ zerosLike wt b, q = 0) := by
  refine ⟨⟨diffeq (catRow (timeB B t) c) y,
      negCol (divFn (diffeq (catRow (timeB B t) c) y) y e0), ?_⟩,
    ⟨diffeq3 (timeB B t) y c,
      negCol (if training && useTrain || !training && useTest
        then divFn (diffeq3 (timeB B t) y c) y e0
        else divBF (diffeq3 (timeB B t) y c) y), ?_⟩,
    ⟨diffeq4 (timeB B t) y c wt,
      negCol (divFn (diffeq4 (timeB B t) y c wt) y e0), ?_⟩,
    fun b => by simp [zerosLike],
    fun b q hq => ?_, fun b => by simp [zerosLike], fun b q hq => ?_⟩
  · simp [ODEfunc.forward, h]
  · cases training <;> cases useTrain <;> cases useTest <;>
      simp [ODEhyperfunc.forward, h]
  · simp [ODEhyperfunc2D.forward, h]
  · simp [zerosLike] at hq; exact hq.2
  · simp [zerosLike] at hq; exact hq.2

/-- Closed instance of C3 at batch 1 with concrete drifts, estimators, noise
source and armed instance state: the `ODEfunc` 3-channel zero context
derivative and the `ODEhyperfunc` 3-channel zero weights derivative. -/
theorem C3_zero_aux_derivatives_witness :
    (∃ dy d, ODEfunc.forward dq2 dv3 noise0 ⟨some (some row1), 0⟩ 0
        [row1, row1, row1] =
      Except.ok (⟨some (some row1), 1⟩, [dy, d, zerosLike row1]))
    ∧ (∃ dy d, ODEhyperfunc.forward dq3 dv3 dv2 true true false noise0
        ⟨some (some row1), 0⟩ 0 [row1, row1, row1] =
      Except.ok (⟨some (some row1), 1⟩, [dy, d, zerosLike row1])) :=
  ⟨(C3_zero_aux_derivatives dq2 dq3 dq4 dv3 dv2 true true false noise0
      ⟨some (some row1), 0⟩ 0 row1 row1 row1 row1 row1 rfl).1,
    (C3_zero_aux_derivatives dq2 dq3 dq4 dv3 dv2 true true false noise0
      ⟨some (some row1), 0⟩ 0 row1 row1 row1 row1 row1 rfl).2.1⟩

/-- C4 counterexample: on the empty state tuple, `ODEfunc.forward` raises the
`IndexError` of `states[0]`, not the assertion error the claim states for
every length other than 2 and 3. -/
theorem C4_empty_states_counterexample :
    ODEfunc.forward dq2 dv3 noise0 ⟨some none, 0⟩ 0 [] =
      Except.error indexErrMsg
    ∧ indexErrMsg ≠ assertLenMsg :=
  ⟨rfl, by decide⟩

/-- C4 (amended): with an armed instance, a 3-channel tuple computes the
drift from `cat([t, context])` and `y`, a 2-channel tuple from the broadcast
time alone and `y`; the empty tuple raises an `IndexError` at `states[0]`,
and every other length raises the fatal assertion error at the first
offending call (the error is returned, never retried). -/
theorem C4_forward_branching {B : ℕ} (diffeq : TRow B → TRow B → TRow B)
    (divFn : TRow B → TRow B → TRow B → Fin B → ℚ)
    (noise : Fin B → ℕ → ℚ) (s : FuncState B) (t : ℚ) (e0 : TRow B)
    (h : s.e? = some (some e0)) :
    (∀ y lp c, ODEfunc.forward diffeq divFn noise s t [y, lp, c] =
        Except.ok (⟨some (some e0), s.numEvals + 1⟩,
          [diffeq (catRow (timeB B t) c) y,
           negCol (divFn (diffeq (catRow (timeB B t) c) y) y e0),
           zerosLike c]))
    ∧ (∀ y lp, ODEfunc.forward diffeq divFn noise s t [y, lp] =
        Except.ok (⟨some (some e0), s.numEvals + 1⟩,
          [diffeq (timeB B t) y,
           negCol (divFn (diffeq (timeB B t) y) y e0)]))
    ∧ (∀ states : List (TRow B), states ≠ [] → states.length ≠ 2 →
        states.length ≠ 3 →
        ODEfunc.forward diffeq divFn noise s t states =
          Except.error assertLenMsg)
    ∧ ODEfunc.forward diffeq divFn noise s t [] =
        Except.error indexErrMsg := by
  refine ⟨fun y lp c => by simp [ODEfunc.forward, h],
    fun y lp => by simp [ODEfunc.forward, h], ?_, rfl⟩
  intro states hne h2 h3
  cases states with
  | nil => exact absurd rfl hne
  | cons y rest =>
    cases rest with
    | nil => simp [ODEfunc.forward, h]
    | cons lp rest2 =>
      cases rest2 with
      | nil => exact absurd rfl h2
      | cons c rest3 =>
        cases rest3 with
        | nil => exact absurd rfl h3
        | cons d rest4 => simp [ODEfunc.forward, h]

/-- Closed instance of C4 at a length-4 state tuple: the assertion error. -/
theorem C4_forward_branching_witness :
    ODEfunc.forward dq2 dv3 noise0 ⟨some (some row1), 0⟩ 0
        [row1, row1, row1, row1] = Except.error assertLenMsg :=
  (C4_forward_branching dq2 dv3 noise0 ⟨some (some row1), 0⟩ 0 row1
    rfl).2.2.1 [row1, row1, row1, row1] (by simp) (by simp) (by simp)

/-- C5 counterexample: on a freshly constructed `ODEfunc` (whose `__init__`
never binds `self._e`), the first `forward` call raises an `AttributeError`
when evaluating `self._e is None`, so the call does not complete normally. -/
theorem C5_fresh_forward_counterexample :
    ODEfunc.forward dq2 dv3 noise0 (ODEfunc.init 1) 0 [row1, row1] =
      Except.error attrErrMsg :=
  rfl

/-- C5 (amended): calling `forward` before `before_odeint` on a freshly
constructed `ODEfunc` raises an `AttributeError` (the `_e` attribute is bound
only by `before_odeint` or by a completed `forward`); once `before_odeint`
has set `_e = None`, the next `forward` call samples a noise vector with the
shape of `y` from the RNG, fixes it as the probe vector, and completes normally. -/
theorem C5_lazy_noise_after_arming {B : ℕ} (diffeq : TRow B → TRow B → TRow B)
    (divFn : TRow B → TRow B → TRow B → Fin B → ℚ)
    (noise : Fin B → ℕ → ℚ) (s : FuncState B) (t : ℚ) (y lp : TRow B)
    (h : s.e? = some none) :
    ODEfunc.forward diffeq divFn noise s t [y, lp] =
      Except.ok (⟨some (some (randnLike noise y)), s.numEvals + 1⟩,
        [diffeq (timeB B t) y,
         negCol (divFn (diffeq (timeB B t) y) y (randnLike noise y))])
    ∧ (∀ b, (randnLike noise y b).length = (y b).length)
    ∧ ODEfunc.forward diffeq divFn noise (ODEfunc.init B) t [y, lp] =
        Except.error attrErrMsg := by
  refine ⟨by simp [ODEfunc.forward, h], fun b => by simp [randnLike], rfl⟩

/-- Closed instance of C5 after `before_odeint(None)` at batch 1. -/
theorem C5_lazy_noise_after_arming_witness :
    ODEfunc.forward dq2 dv3 noise0
        (ODEfunc.before_odeint (ODEfunc.init 1) none) 0 [row1, row1] =
      Except.ok (⟨some (some (randnLike noise0 row1)), 0 + 1⟩,
        [dq2 (timeB 1 0) row1,
         negCol (dv3 (dq2 (timeB 1 0) row1) row1 (randnLike noise0 row1))]) :=
  (C5_lazy_noise_after_arming dq2 dv3 noise0
    (ODEfunc.before_odeint (ODEfunc.init 1) none) 0 row1 row1 rfl).1

/-- C6: `ODEhyperfunc.forward` computes its divergence with the approximate
estimator exactly when (training and `use_div_approx_train`) or (not training
and `use_div_approx_test`), and with the brute-force estimator otherwise —
for arbitrary estimator callables `divAP`/`divBF`, so the selection is fully
determined by the mode and the two construction flags. -/
theorem C6_estimator_selection {B : ℕ}
    (diffeq : TRow B → TRow B → TRow B → TRow B)
    (divAP : TRow B → TRow B → TRow B → Fin B → ℚ)
    (divBF : TRow B → TRow B → Fin B → ℚ)
    (training useTrain useTest : Bool) (noise : Fin B → ℕ → ℚ)
    (s : FuncState B) (t : ℚ) (y lp c e0 : TRow B)
    (h : s.e? = some (some e0)) :
    ODEhyperfunc.forward diffeq divAP divBF training useTrain useTest noise
        s t [y, lp, c] =
      Except.ok (⟨some (some e0), s.numEvals + 1⟩,
        [diffeq (timeB B t) y c,
         negCol (if training && useTrain || !training && useTest
           then divAP (diffeq (timeB B t) y c) y e0
           else divBF (diffeq (timeB B t) y c) y),
         zerosLike c]) := by
  cases training <;> cases useTrain <;> cases useTest <;>
    simp [ODEhyperfunc.forward, h]

/-- Closed instance of C6 in evaluation mode with `use_div_approx_test`
unset: the brute-force estimator column. -/
theorem C6_estimator_selection_witness :
    ODEhyperfunc.forward dq3 dv3 dv2 false true false noise0
        ⟨some (some row1), 0⟩ 0 [row1, row1, row1] =
      Except.ok (⟨some (some row1), 0 + 1⟩,
        [dq3 (timeB 1 0) row1 row1,
         negCol (dv2 (dq3 (timeB 1 0) row1 row1) row1),
         zerosLike row1]) := by
  have h := C6_estimator_selection dq3 dv3 dv2 false true false noise0
    ⟨some (some row1), 0⟩ 0 row1 row1 row1 row1 rfl
  simpa using h

/-- C9: `ODEhyperfunc.forward` unconditionally reads `states[2]` and passes
it as the weight-vector (third) argument of its drift network, with the
broadcast time as the context argument; the zero derivative of the third
channel is `zeros_like` of that same weight vector; and every state tuple of
length below 3 fails with an `IndexError` instead of a 2-channel branch. -/
theorem C9_hyperfunc_states2_weights {B : ℕ}
    (diffeq : TRow B → TRow B → TRow B → TRow B)
    (divAP : TRow B → TRow B → TRow B → Fin B → ℚ)
    (divBF : TRow B → TRow B → Fin B → ℚ)
    (training useTrain useTest : Bool) (noise : Fin B → ℕ → ℚ)
    (s : FuncState B) (t : ℚ) (e0 : TRow B)
    (h : s.e? = some (some e0)) :
    (∀ y lp wt, ∃ d, ODEhyperfunc.forward diffeq divAP divBF training
        useTrain useTest noise s t [y, lp, wt] =
      Except.ok (⟨some (some e0), s.numEvals + 1⟩,
        [diffeq (timeB B t) y wt, d, zerosLike wt]))
    ∧ (∀ states : List (TRow B), states.length < 3 →
        ODEhyperfunc.forward diffeq divAP divBF training useTrain useTest
          noise s t states = Except.error indexErrMsg) := by
  constructor
  · intro y lp wt
    refine ⟨negCol (if training && useTrain || !training && useTest
      then divAP (diffeq (timeB B t) y wt) y e0
      else divBF (diffeq (timeB B t) y wt) y), ?_⟩
    cases training <;> cases useTrain <;> cases useTest <;>
      simp [ODEhyperfunc.forward, h]
  · intro states hlen
    cases states with
    | nil => rfl
    | cons y rest =>
      cases rest with
      | nil => simp [ODEhyperfunc.forward, h]
      | cons lp rest2 =>
        cases rest2 with
        | nil => simp [ODEhyperfunc.forward, h]
        | cons c rest3 => simp at hlen; omega

/-- Closed instance of C9: a 1-element state tuple fails with `IndexError`. -/
theorem C9_hyperfunc_states2_weights_witness :
    ODEhyperfunc.forward dq3 dv3 dv2 true true true noise0
        ⟨some (some row1), 0⟩ 0 [row1] = Except.error indexErrMsg :=
  (C9_hyperfunc_states2_weights dq3 dv3 dv2 true true true noise0
    ⟨some (some row1), 0⟩ 0 row1 rfl).2 [row1] (by simp)

/-- The retry loop exits after at most `fuel` additional iterations. -/
theorem retryLoop_le (rg : ℕ → Bool) :
    ∀ fuel cnt, retryLoop rg fuel cnt ≤ cnt + fuel := by
  intro fuel
  induction fuel with
  | zero => intro cnt; simp [retryLoop]
  | succ n ih =>
    intro cnt
    cases hc : rg cnt with
    | true => simp [retryLoop, hc]
    | false =>
      simp only [retryLoop, hc, Bool.false_eq_true, if_false]
      exact le_trans (ih (cnt + 1)) (by omega)

/-- If the flag at the exit counter is still false, every flag in the scanned
window was false. -/
theorem retryLoop_false_all (rg : ℕ → Bool) :
    ∀ fuel cnt, rg (retryLoop rg fuel cnt) = false →
      ∀ k, cnt ≤ k → k ≤ cnt + fuel → rg k = false := by
  intro fuel
  induction fuel with
  | zero =>
    intro cnt h k hk1 hk2
    have hk : k = cnt := by omega
    subst hk
    simpa [retryLoop] using h
  | succ n ih =>
    intro cnt h k hk1 hk2
    cases hc : rg cnt with
    | true => simp [retryLoop, hc] at h
    | false =>
      simp only [retryLoop, hc, Bool.false_eq_true, if_false] at h
      rcases Nat.eq_or_lt_of_le hk1 with rfl | hlt
      · exact hc
      · exact ih (cnt + 1) h k hlt (by omega)

/-- If every flag in the window is false, the loop runs to exhaustion. -/
theorem retryLoop_all_false (rg : ℕ → Bool) :
    ∀ fuel cnt, (∀ k, cnt ≤ k → k ≤ cnt + fuel → rg k = false) →
      retryLoop rg fuel cnt = cnt + fuel := by
  intro fuel
  induction fuel with
  | zero => intro cnt _; simp [retryLoop]
  | succ n ih =>
    intro cnt hall
    have hc : rg cnt = false := hall cnt (le_refl cnt) (by omega)
    simp only [retryLoop, hc, Bool.false_eq_true, if_false]
    rw [ih (cnt + 1) (fun k h1 h2 => hall k (by omega) (by omega))]
    omega

/-- C8: the gradient call of `divergence_approx` is recomputed at most 10
times (the loop counter never exceeds 10); when the first result already
carries gradient history no retry happens; whenever some attempt within the
bound carries gradient history the function returns the (attempt-independent)
value of the same gradient computation; and when the summed result still
lacks gradient history after all retries it fails with the assertion message
carrying the size of the drift and the gradient-tracking flags of the drift,
state, probe and intermediate tensors, at `cnt = 10`. -/
theorem C8_retry_policy {B P D : ℕ} (J : Fin B → Fin P → Fin D → Fin D → ℚ)
    (e : T3 B P D) (xRG : ℕ → Bool) (eRG : Bool) (fSize : List ℕ)
    (fRG yRG : Bool) :
    retryFinal (fun k => xRG k || eRG) ≤ 10
    ∧ ((xRG 0 || eRG) = true →
        divergence_approxFull J e xRG eRG fSize fRG yRG =
          Except.ok (divergence_approx J e, 0))
    ∧ ((∃ k, k ≤ 10 ∧ (xRG k || eRG) = true) →
        ∃ c, c ≤ 10 ∧ divergence_approxFull J e xRG eRG fSize fRG yRG =
          Except.ok (divergence_approx J e, c))
    ∧ ((∀ k, k ≤ 10 → (xRG k || eRG) = false) →
        divergence_approxFull J e xRG eRG fSize fRG yRG =
          Except.error (diagMsg fSize fRG yRG (xRG 10) eRG false 10)) := by
  refine ⟨by simpa [retryFinal] using retryLoop_le (fun k => xRG k || eRG) 10 0,
    ?_, ?_, ?_⟩
  · intro h0
    simp [divergence_approxFull, retryFinal, retryLoop, h0]
  · intro hex
    by_cases hrf : (xRG (retryFinal fun k => xRG k || eRG) || eRG) = true
    · refine ⟨retryFinal fun k => xRG k || eRG, ?_, ?_⟩
      · simpa [retryFinal] using retryLoop_le (fun k => xRG k || eRG) 10 0
      · simp only [divergence_approxFull]
        rw [if_pos hrf]
    · obtain ⟨k, hk, hkt⟩ := hex
      have hrf2 : (fun k => xRG k || eRG)
          (retryLoop (fun k => xRG k || eRG) 10 0) = false := by
        simpa [retryFinal] using hrf
      have hk0 : (xRG k || eRG) = false :=
        retryLoop_false_all (fun k => xRG k || eRG) 10 0 hrf2 k
          (Nat.zero_le k) (by omega)
      simp [hkt] at hk0
  · intro hall
    have h10 : retryFinal (fun k => xRG k || eRG) = 10 := by
      have := retryLoop_all_false (fun k => xRG k || eRG) 10 0
        (fun k _ h2 => hall k (by omega))
      simpa [retryFinal] using this
    have hrf : (xRG 10 || eRG) = false := hall 10 (le_refl 10)
    simp only [divergence_approxFull, h10]
    rw [if_neg (by simp [hrf]), hrf]

/-- Closed instance of C8: with no gradient history attaching on any attempt,
the assertion failure is raised with the diagnostic message at `cnt = 10`. -/
theorem C8_retry_policy_witness :
    divergence_approxFull J1 e1 (fun _ => false) false [4, 3] true true =
      Except.error (diagMsg [4, 3] true true false false false 10) :=
  (C8_retry_policy J1 e1 (fun _ => false) false [4, 3] true true).2.2.2
    (fun _ _ => rfl)

/-- C10: the output of `ODEHypernet.forward` (and of
`ODEHypernet2D.forward`) is identical whichever value `use_bias` was stored
with at construction — the flag is never read by the forward pass — and the
bias segment of the weight vector (`w[i + m*n + c]` for output column `c`)
is added by every layer regardless, as the explicit per-layer output formula
shows. -/
theorem C10_use_bias_never_read {B P : ℕ} (sg act : ℚ → ℚ) (dims : String)
    (input_dim : ℕ) (b1 b2 : Bool) (ctx : Fin B → ℚ) (y yp : TD B P)
    (w : TW B) :
    ODEHypernet.forwardM sg act ⟨dims, input_dim, b1⟩ ctx y w =
      ODEHypernet.forwardM sg act ⟨dims, input_dim, b2⟩ ctx y w
    ∧ ODEHypernet2D.forwardM sg act ⟨dims, input_dim, b1⟩ ctx y yp w =
      ODEHypernet2D.forwardM sg act ⟨dims, input_dim, b2⟩ ctx y yp w
    ∧ ∀ (m n : ℕ) (st : TD B P × ℕ) (b : Fin B) (p : Fin P) (c : ℕ),
        (ODEHypernet.layerStep sg ctx w m n st).1 b p c =
          sg (ctx b * w b (st.2 + m * n + n + c)
              + w b (st.2 + m * n + n + n + c)) *
            ((∑ r ∈ Finset.range m, st.1 b p r * w b (st.2 + r * n + c))
              + w b (st.2 + m * n + c))
          + ctx b * w b (st.2 + m * n + n + n + n + c) :=
  ⟨rfl, rfl, fun _ _ _ _ _ _ => rfl⟩
